import Mathlib

/-!
Verification development for the TLK recipe-sync repository
(`sync_recipes.py`, `app.py`, `quickstart.py`).

The Python source is shallowly embedded: pure string manipulation is
translated function by function, the external collaborators (Gmail,
HTTP page fetching, the HTML parser) are modelled as deterministic
capabilities supplied through an environment record, and the sqlite
store is modelled as a list of rows with the `UNIQUE(email_id, url)`
constraint realised by an insert-or-ignore operation.  Python
exceptions that the repository code can actually raise are modelled
with `Except`; exception handlers in the code become `match` on that
`Except`.

Python standard-library helpers (`str.replace`, `urllib.parse`,
`html.unescape`, ...) are embedded over `List Char` with structural or
fuel-based recursion so that every definition evaluates by `decide`.
-/

set_option maxRecDepth 4096

deriving instance DecidableEq for Except

namespace TLK

/-! ## Python string primitives -/

/-- Characters Python's `str.split()` / `str.strip()` treat as whitespace
(ASCII subset; the strings in this development contain no exotic spaces). -/
def isPySpace (c : Char) : Bool :=
  c = ' ' || c = '\t' || c = '\n' || c = '\r' || c = Char.ofNat 11 || c = Char.ofNat 12

def isAsciiAlpha (c : Char) : Bool :=
  ('a' ≤ c && c ≤ 'z') || ('A' ≤ c && c ≤ 'Z')

def isAsciiDigit (c : Char) : Bool :=
  '0' ≤ c && c ≤ '9'

/-- `str.lower` on one character (ASCII; non-ASCII letters are left as-is,
which agrees with Python on every string this repository manipulates). -/
def pyLowerChar (c : Char) : Char :=
  if 'A' ≤ c && c ≤ 'Z' then Char.ofNat (c.toNat + 32) else c

def pyUpperChar (c : Char) : Char :=
  if 'a' ≤ c && c ≤ 'z' then Char.ofNat (c.toNat - 32) else c

/-- `str.lower`. -/
def pyLower (s : String) : String := ⟨s.data.map pyLowerChar⟩

/-- `str.capitalize`: first character upper-cased, the rest lower-cased. -/
def pyCapitalize (s : String) : String :=
  match s.data with
  | [] => ""
  | c :: cs => ⟨pyUpperChar c :: cs.map pyLowerChar⟩

/-- Does the list start with the given pattern? -/
def listStartsWith : List Char → List Char → Bool
  | _, [] => true
  | [], _ :: _ => false
  | c :: cs, p :: ps => c = p && listStartsWith cs ps

/-- Python's substring test `pat in s`. -/
def listContainsSub (pat : List Char) : List Char → Bool
  | [] => pat.isEmpty
  | c :: cs => listStartsWith (c :: cs) pat || listContainsSub pat cs

/-- Python's substring test `pat in s` on `String`. -/
def strContains (s pat : String) : Bool :=
  listContainsSub pat.data s.data

/-- Fuelled worker for `str.replace` (every occurrence, left to right). -/
def listReplaceAux (pat rep : List Char) : Nat → List Char → List Char
  | 0, s => s
  | _ + 1, [] => []
  | fuel + 1, c :: cs =>
    if !pat.isEmpty && listStartsWith (c :: cs) pat then
      rep ++ listReplaceAux pat rep fuel (List.drop pat.length (c :: cs))
    else
      c :: listReplaceAux pat rep fuel cs

/-- `str.replace` for a non-empty pattern (all uses in the repository
have non-empty patterns). -/
def pyReplace (s pat rep : String) : String :=
  ⟨listReplaceAux pat.data rep.data (s.data.length + 1) s.data⟩

/-- Python `s.split(sep)` for a one-character separator, keeping empty
chunks, exactly like Python. -/
def splitChar (sep : Char) : List Char → List (List Char)
  | [] => [[]]
  | c :: cs =>
    match splitChar sep cs with
    | [] => [[]]
    | h :: t => if c = sep then [] :: h :: t else (c :: h) :: t

/-- Python `s.split(sep, 1)` when the separator occurs: the chunk before
the first occurrence and the remainder after it. -/
def splitFirstChar (sep : Char) : List Char → Option (List Char × List Char)
  | [] => none
  | c :: cs =>
    if c = sep then some ([], cs)
    else
      match splitFirstChar sep cs with
      | none => none
      | some (a, b) => some (c :: a, b)

/-- Index of the first occurrence of a character (`str.find`). -/
def listFindCharIdx (sep : Char) : List Char → Option Nat
  | [] => none
  | c :: cs => if c = sep then some 0 else (listFindCharIdx sep cs).map (· + 1)

/-- Index of the last occurrence of a character (`str.rfind`). -/
def listRfindCharIdx (sep : Char) (l : List Char) : Option Nat :=
  (listFindCharIdx sep l.reverse).map (fun i => l.length - 1 - i)

/-- Strip characters satisfying `p` from both ends. -/
def stripBoth (p : Char → Bool) (l : List Char) : List Char :=
  ((l.dropWhile p).reverse.dropWhile p).reverse

/-- Python `s.strip(set)`. -/
def pyStripChars (set : String) (s : String) : String :=
  ⟨stripBoth (fun c => set.data.contains c) s.data⟩

/-- Python `s.strip()` (whitespace on both ends). -/
def pyStripWs (s : String) : String := ⟨stripBoth isPySpace s.data⟩

/-- Worker for Python `s.split()`: split on whitespace runs, dropping
empty words. -/
def pyWordsAux : List Char → List Char → List (List Char)
  | [], cur => if cur.isEmpty then [] else [cur.reverse]
  | c :: cs, cur =>
    if isPySpace c then
      if cur.isEmpty then pyWordsAux cs [] else cur.reverse :: pyWordsAux cs []
    else pyWordsAux cs (c :: cur)

/-- Python `s.split()` (no arguments). -/
def pyWords (s : String) : List String :=
  (pyWordsAux s.data []).map String.mk

/-- The seen-set deduplication loop the repository uses in several
places: keep the first occurrence of each element, preserving order. -/
def pyDedupAux [DecidableEq α] : List α → List α → List α
  | [], _ => []
  | x :: xs, seen =>
    if x ∈ seen then pyDedupAux xs seen else x :: pyDedupAux xs (x :: seen)

def pyDedup [DecidableEq α] (l : List α) : List α := pyDedupAux l []

/-- Deduplication by a key function, keeping the first occurrence
(the registry deduplicates tuples by their recipe URL this way). -/
def pyDedupByAux [DecidableEq β] (f : α → β) : List α → List β → List α
  | [], _ => []
  | x :: xs, seen =>
    if f x ∈ seen then pyDedupByAux f xs seen else x :: pyDedupByAux f xs (f x :: seen)

def pyDedupBy [DecidableEq β] (f : α → β) (l : List α) : List α := pyDedupByAux f l []

/-! ## Percent decoding (`urllib.parse.unquote`) -/

/-- Value of one hexadecimal digit, upper or lower case
(48 = code of '0', 87 = code of 'a' minus 10, 55 = code of 'A' minus 10). -/
def hexDigitVal (c : Char) : Option Nat :=
  if isAsciiDigit c then some (c.toNat - 48)
  else if 'a' ≤ c && c ≤ 'f' then some (c.toNat - 87)
  else if 'A' ≤ c && c ≤ 'F' then some (c.toNat - 55)
  else none

/-- Incremental UTF-8 decoder used by `unquote` to turn a maximal run of
percent-escaped bytes back into characters.  Ill-formed byte sequences
become U+FFFD (Python decodes with `errors="replace"`; on ill-formed
input Python may emit one U+FFFD per maximal subpart while this model
emits one per ill-formed byte, a difference no string in this
development exercises). -/
def utf8DecodeAux : Nat → List Nat → List Char
  | 0, _ => []
  | _ + 1, [] => []
  | fuel + 1, b :: bs =>
    if b < 0x80 then Char.ofNat b :: utf8DecodeAux fuel bs
    else if 0xC2 ≤ b && b ≤ 0xDF then
      match bs with
      | b2 :: bs2 =>
        if 0x80 ≤ b2 && b2 ≤ 0xBF then
          Char.ofNat ((b - 0xC0) * 0x40 + (b2 - 0x80)) :: utf8DecodeAux fuel bs2
        else Char.ofNat 0xFFFD :: utf8DecodeAux fuel bs
      | [] => [Char.ofNat 0xFFFD]
    else if 0xE0 ≤ b && b ≤ 0xEF then
      match bs with
      | b2 :: b3 :: bs3 =>
        let lo2 := if b = 0xE0 then 0xA0 else 0x80
        let hi2 := if b = 0xED then 0x9F else 0xBF
        if lo2 ≤ b2 && b2 ≤ hi2 && 0x80 ≤ b3 && b3 ≤ 0xBF then
          Char.ofNat ((b - 0xE0) * 0x1000 + (b2 - 0x80) * 0x40 + (b3 - 0x80)) ::
            utf8DecodeAux fuel bs3
        else Char.ofNat 0xFFFD :: utf8DecodeAux fuel bs
      | _ => Char.ofNat 0xFFFD :: utf8DecodeAux fuel bs
    else if 0xF0 ≤ b && b ≤ 0xF4 then
      match bs with
      | b2 :: b3 :: b4 :: bs4 =>
        let lo2 := if b = 0xF0 then 0x90 else 0x80
        let hi2 := if b = 0xF4 then 0x8F else 0xBF
        if lo2 ≤ b2 && b2 ≤ hi2 && 0x80 ≤ b3 && b3 ≤ 0xBF && 0x80 ≤ b4 && b4 ≤ 0xBF then
          Char.ofNat ((b - 0xF0) * 0x40000 + (b2 - 0x80) * 0x1000 +
              (b3 - 0x80) * 0x40 + (b4 - 0x80)) :: utf8DecodeAux fuel bs4
        else Char.ofNat 0xFFFD :: utf8DecodeAux fuel bs
      | _ => Char.ofNat 0xFFFD :: utf8DecodeAux fuel bs
    else Char.ofNat 0xFFFD :: utf8DecodeAux fuel bs

/-- Collect the maximal leading run of valid `%XY` escapes as byte
values, returning the bytes and the unconsumed remainder. -/
def collectPctBytes : Nat → List Char → List Nat × List Char
  | 0, s => ([], s)
  | fuel + 1, s =>
    match s with
    | '%' :: h1 :: h2 :: rest =>
      match hexDigitVal h1, hexDigitVal h2 with
      | some a, some b =>
        let (bs, r) := collectPctBytes fuel rest
        ((a * 16 + b) :: bs, r)
      | _, _ => ([], s)
    | _ => ([], s)

/-- Fuelled worker for `urllib.parse.unquote`. -/
def pyUnquoteAux : Nat → List Char → List Char
  | 0, s => s
  | _ + 1, [] => []
  | fuel + 1, c :: cs =>
    if c = '%' then
      match collectPctBytes (fuel + 1) (c :: cs) with
      | ([], _) => c :: pyUnquoteAux fuel cs
      | (bs, rest) => utf8DecodeAux (bs.length + 1) bs ++ pyUnquoteAux fuel rest
    else c :: pyUnquoteAux fuel cs

/-- `urllib.parse.unquote`: decode percent-escapes, decoding each
maximal escaped run as UTF-8. -/
def pyUnquote (s : String) : String :=
  ⟨pyUnquoteAux (s.data.length + 1) s.data⟩

/-- `urllib.parse.unquote_plus` (used by `parse_qs` on names and
values): `+` becomes a space, then percent-decoding. -/
def pyUnquotePlus (s : String) : String :=
  pyUnquote ⟨s.data.map (fun c => if c = '+' then ' ' else c)⟩

/-! ## `html.unescape` (restricted)

The repository calls `html.unescape` on recipe titles.  The full CPython
implementation carries the complete HTML5 named-reference table (over
two thousand entries) and accepts some references without a trailing
semicolon; this embedding covers numeric references and the common
named references, all terminated by `;`, which includes every reference
any string in this development contains. -/

def namedEntities : List (String × String) :=
  [("amp;", "&"), ("lt;", "<"), ("gt;", ">"), ("quot;", "\""),
   ("apos;", "'"), ("nbsp;", " "), ("mdash;", "—"),
   ("ndash;", "–"), ("rsquo;", "’"), ("lsquo;", "‘"),
   ("ldquo;", "“"), ("rdquo;", "”")]

/-- Accumulate a decimal number from leading digits, returning the
value and the remainder. -/
def takeDecimal : List Char → Nat → Nat × List Char
  | [], acc => (acc, [])
  | c :: cs, acc =>
    if isAsciiDigit c then takeDecimal cs (acc * 10 + (c.toNat - '0'.toNat))
    else (acc, c :: cs)

/-- Accumulate a hexadecimal number from leading hex digits. -/
def takeHex : List Char → Nat → Nat × List Char
  | [], acc => (acc, [])
  | c :: cs, acc =>
    match hexDigitVal c with
    | some v => takeHex cs (acc * 16 + v)
    | none => (acc, c :: cs)

/-- Is `n` a Unicode scalar value (so `Char.ofNat n` is meaningful)? -/
def isScalar (n : Nat) : Bool :=
  (n < 0xD800 || (0xE000 ≤ n && n ≤ 0x10FFFF))

/-- Fuelled worker for the restricted `html.unescape`. -/
def htmlUnescapeAux : Nat → List Char → List Char
  | 0, s => s
  | _ + 1, [] => []
  | fuel + 1, c :: cs =>
    if c = '&' then
      match namedEntities.find? (fun p => listStartsWith cs p.1.data) with
      | some p => p.2.data ++ htmlUnescapeAux fuel (cs.drop p.1.data.length)
      | none =>
        match cs with
        | '#' :: 'x' :: body =>
          match takeHex body 0, body with
          | (v, ';' :: rest), h :: _ =>
            if (hexDigitVal h).isSome && isScalar v then
              Char.ofNat v :: htmlUnescapeAux fuel rest
            else c :: htmlUnescapeAux fuel cs
          | _, _ => c :: htmlUnescapeAux fuel cs
        | '#' :: body =>
          match takeDecimal body 0, body with
          | (v, ';' :: rest), h :: _ =>
            if isAsciiDigit h && isScalar v then
              Char.ofNat v :: htmlUnescapeAux fuel rest
            else c :: htmlUnescapeAux fuel cs
          | _, _ => c :: htmlUnescapeAux fuel cs
        | _ => c :: htmlUnescapeAux fuel cs
    else c :: htmlUnescapeAux fuel cs

/-- `html.unescape`, restricted as documented above. -/
def pyHtmlUnescape (s : String) : String :=
  ⟨htmlUnescapeAux (s.data.length + 1) s.data⟩

/-! ## `urllib.parse`

Embedding of the pieces of `urllib.parse` the repository calls:
`urlparse`, `urljoin`, `parse_qs` and `unquote`.  The embedding follows
the CPython generic-URL algorithm, including the WHATWG clean-up of
stray control characters.

CPython's `urlsplit` raises `ValueError("Invalid IPv6 URL")` when the
authority contains an unmatched bracket; `pyUrlsplitE` / `pyUrlparseE`
model that error path with `Except`, and the repository functions that
wrap `urlparse` in `try/except` (`unwrap_redirect`,
`_follow_redirect`) consume those.  The plain `pyUrlsplit` /
`pyUrlparse` are the same computation with the error path collapsed;
they embed the call sites that have no exception handler
(`extract_homepage_from_url`, `extract_title_from_url`, `urljoin`, the
providers' path checks), where a bracketed authority would abort the
run in CPython: those URLs are outside the fragment the corresponding
claims quantify over.  The NFKC normalisation check for non-ASCII
authorities and the bracketed-host validation CPython 3.11+ performs
on a matched bracket pair are likewise outside the modelled fragment
(a matched-bracket authority parses here as on CPython 3.10). -/

structure UrlParts where
  scheme : String
  netloc : String
  path : String
  params : String
  query : String
  fragment : String
deriving Repr, DecidableEq

/-- WHATWG clean-up CPython applies to the URL before parsing: strip
leading C0-control-or-space characters (trailing ones are deliberately
kept by CPython), then remove every tab, CR and LF. -/
def whatwgClean (l : List Char) : List Char :=
  (l.dropWhile (fun c => c.toNat ≤ 0x20)).filter
    (fun c => !(c = '\t' || c = '\r' || c = '\n'))

/-- The same clean-up for the `scheme` argument, which CPython strips
on both ends. -/
def whatwgCleanScheme (l : List Char) : List Char :=
  (stripBoth (fun c => c.toNat ≤ 0x20) l).filter
    (fun c => !(c = '\t' || c = '\r' || c = '\n'))

def isSchemeChar (c : Char) : Bool :=
  isAsciiAlpha c || isAsciiDigit c || c = '+' || c = '-' || c = '.'

/-- Scheme detection of `urlsplit`: a leading `name:` where `name`
starts with an ASCII letter and continues with scheme characters.
Returns the lower-cased scheme and the remainder, or `none`. -/
def splitScheme (u : List Char) : Option (List Char × List Char) :=
  match listFindCharIdx ':' u with
  | none => none
  | some i =>
    if 0 < i then
      match u.take i with
      | c :: rest =>
        if isAsciiAlpha c && rest.all isSchemeChar then
          some ((u.take i).map pyLowerChar, u.drop (i + 1))
        else none
      | [] => none
    else none

/-- `_splitnetloc`: for input beginning with `//`, the authority runs
to the first `/`, `?` or `#`. -/
def splitNetloc (u : List Char) : List Char × List Char :=
  let rest := u.drop 2
  (rest.takeWhile (fun c => !(c = '/' || c = '?' || c = '#')),
   rest.dropWhile (fun c => !(c = '/' || c = '?' || c = '#')))

/-- `urllib.parse.urlsplit` (with `allow_fragments=True`, as in every
call the repository makes); `defaultScheme` is the `scheme` argument. -/
def pyUrlsplit (url defaultScheme : String) : UrlParts :=
  let u := whatwgClean url.data
  let ds := whatwgCleanScheme defaultScheme.data
  let su :=
    match splitScheme u with
    | some sr => sr
    | none => (ds, u)
  let nu :=
    if listStartsWith su.2 ['/', '/'] then splitNetloc su.2 else ([], su.2)
  let uf :=
    match splitFirstChar '#' nu.2 with
    | some ab => ab
    | none => (nu.2, [])
  let pq :=
    match splitFirstChar '?' uf.1 with
    | some ab => ab
    | none => (uf.1, [])
  ⟨⟨su.1⟩, ⟨nu.1⟩, ⟨pq.1⟩, "", ⟨pq.2⟩, ⟨uf.2⟩⟩

/-- `_splitparams`: split `;params` off the path, looking only past the
last `/` when the path contains one. -/
def splitparams (path : List Char) : List Char × List Char :=
  let i : Option Nat :=
    if listContainsSub ['/'] path then
      match listRfindCharIdx '/' path with
      | some j =>
        match listFindCharIdx ';' (path.drop j) with
        | some k => some (j + k)
        | none => none
      | none => none
    else listFindCharIdx ';' path
  match i with
  | none => (path, [])
  | some i => (path.take i, path.drop (i + 1))

/-- `urllib.parse.urlparse` with the error path collapsed (see the
section comment: used only at call sites with no exception handler). -/
def pyUrlparse (url defaultScheme : String) : UrlParts :=
  let s := pyUrlsplit url defaultScheme
  if strContains s.path ";" then
    let pp := splitparams s.path.data
    { s with path := ⟨pp.1⟩, params := ⟨pp.2⟩ }
  else s

/-- `urllib.parse.urlsplit` with its `ValueError` modelled: after the
authority is split off, an unmatched `[` or `]` in it raises
`ValueError("Invalid IPv6 URL")` — this check is present in every
CPython version.  The check only ever fires when the input has a
`//`-authority, so applying it to the final `netloc` component is
equivalent to CPython's placement. -/
def pyUrlsplitE (url defaultScheme : String) : Except String UrlParts :=
  let p := pyUrlsplit url defaultScheme
  if (p.netloc.data.contains '[' ∧ ¬ p.netloc.data.contains ']') ∨
      (p.netloc.data.contains ']' ∧ ¬ p.netloc.data.contains '[') then
    .error "ValueError: Invalid IPv6 URL"
  else .ok p

/-- `urllib.parse.urlparse` with the `urlsplit` error propagated
(`_splitparams` itself cannot raise). -/
def pyUrlparseE (url defaultScheme : String) : Except String UrlParts :=
  match pyUrlsplitE url defaultScheme with
  | .error e => .error e
  | .ok s =>
    .ok (if strContains s.path ";" then
      let pp := splitparams s.path.data
      { s with path := ⟨pp.1⟩, params := ⟨pp.2⟩ }
    else s)

/-- `urllib.parse.urlunsplit`. -/
def pyUrlunsplit (scheme netloc url query fragment : String) : String :=
  let u1 :=
    if netloc ≠ "" ∨ listStartsWith url.data ['/', '/'] then
      let u0 := if url ≠ "" ∧ ¬ listStartsWith url.data ['/'] then "/" ++ url else url
      "//" ++ netloc ++ u0
    else url
  let u2 := if scheme ≠ "" then scheme ++ ":" ++ u1 else u1
  let u3 := if query ≠ "" then u2 ++ "?" ++ query else u2
  if fragment ≠ "" then u3 ++ "#" ++ fragment else u3

/-- `urllib.parse.urlunparse`. -/
def pyUrlunparse (p : UrlParts) : String :=
  pyUrlunsplit p.scheme p.netloc
    (if p.params ≠ "" then p.path ++ ";" ++ p.params else p.path) p.query p.fragment

def usesRelative : List String :=
  ["", "ftp", "http", "gopher", "nntp", "imap", "wais", "file", "https",
   "shttp", "mms", "prospero", "rtsp", "rtspu", "sftp", "svn", "svn+ssh",
   "ws", "wss"]

def usesNetloc : List String :=
  ["", "ftp", "http", "gopher", "nntp", "telnet", "imap", "wais", "file",
   "mms", "https", "shttp", "snews", "prospero", "rtsp", "rtspu", "rsync",
   "svn", "svn+ssh", "sftp", "nfs", "git", "git+ssh", "ws", "wss",
   "itms-services"]

/-- The `..` / `.` resolution loop of `urljoin` (pop on `..`, skip `.`). -/
def resolveSegments : List (List Char) → List (List Char) → List (List Char)
  | [], acc => acc
  | seg :: rest, acc =>
    if seg = ['.', '.'] then resolveSegments rest acc.dropLast
    else if seg = ['.'] then resolveSegments rest acc
    else resolveSegments rest (acc ++ [seg])

/-- `urllib.parse.urljoin`. -/
def pyUrljoin (base url : String) : String :=
  if base = "" then url
  else if url = "" then base
  else
    let b := pyUrlparse base ""
    let t := pyUrlparse url b.scheme
    if t.scheme ≠ b.scheme ∨ t.scheme ∉ usesRelative then url
    else if t.scheme ∈ usesNetloc ∧ t.netloc ≠ "" then pyUrlunparse t
    else
      let netloc := if t.scheme ∈ usesNetloc then b.netloc else t.netloc
      if t.path = "" ∧ t.params = "" then
        pyUrlunparse ⟨t.scheme, netloc, b.path, b.params,
          (if t.query = "" then b.query else t.query), t.fragment⟩
      else
        let baseParts0 := splitChar '/' b.path.data
        let baseParts :=
          if baseParts0.getLast? = some [] then baseParts0 else baseParts0.dropLast
        let segments :=
          if listStartsWith t.path.data ['/'] then splitChar '/' t.path.data
          else
            match baseParts ++ splitChar '/' t.path.data with
            | [] => []
            | x :: rest =>
              match rest.getLast? with
              | none => [x]
              | some lastSeg =>
                x :: ((rest.dropLast).filter (fun s => !s.isEmpty) ++ [lastSeg])
        let res0 := resolveSegments segments []
        let res1 :=
          if segments.getLast? = some ['.'] ∨ segments.getLast? = some ['.', '.'] then
            res0 ++ [[]]
          else res0
        let joined := List.intercalate ['/'] res1
        pyUrlunparse ⟨t.scheme, netloc,
          (if joined.isEmpty then "/" else ⟨joined⟩), t.params, t.query, t.fragment⟩

/-- `urllib.parse.parse_qsl` with the repository-relevant defaults
(`keep_blank_values=False`, separator `&`): pairs without `=` or with
an empty value are dropped, names and values are plus-and-percent
decoded. -/
def pyParseQsl (qs : String) : List (String × String) :=
  (splitChar '&' qs.data).filterMap fun nv =>
    if nv.isEmpty then none
    else
      match splitFirstChar '=' nv with
      | none => none
      | some (n, v) =>
        if v.isEmpty then none
        else some (pyUnquotePlus ⟨n⟩, pyUnquotePlus ⟨v⟩)

/-- `parse_qs(query).get(key, [None])[0]`: the first value recorded for
`key`, if any. -/
def parseQsFirst (key query : String) : Option String :=
  (((pyParseQsl query).filter (fun p => p.1 == key)).head?).map (·.2)

/-! ## Data model

The sqlite `recipes` table is a list of rows; the `id` and
`created_at` columns (assigned by sqlite, never consulted by the
pipeline's logic) are not modelled.  The HTML-parsing capability
(BeautifulSoup) is modelled by giving pages and email bodies directly
as their parsed contents: the `og:title` content, the first `h1`'s
stripped text, the `title` element's stripped text, and the list of
`<a href=...>` anchors with their `get_text(" ", strip=True)` texts. -/

structure RecipeRow where
  email_id : String
  source : String
  title : String
  url : String
  parent_url : Option String
  homepage : Option String
deriving Repr, DecidableEq

structure Anchor where
  text : String
  href : String
deriving Repr, DecidableEq

structure Page where
  ogTitle : Option String
  h1Text : Option String
  titleText : Option String
  anchors : List Anchor
deriving Repr, DecidableEq

structure EmailMessage where
  id : String
  subject : String
  anchors : List Anchor
deriving Repr, DecidableEq

/-- The external collaborators of one sync run, as deterministic
capabilities: the mailbox messages the Gmail query returns,
`fetch_page_html` composed with HTML parsing (`none` models a fetch
failure or an empty body, both falsy in the code), and the final URL
reached by `requests.head(..., allow_redirects=True)` (`none` models a
raised request exception). -/
structure Env where
  messages : List EmailMessage
  fetchPage : String → Option Page
  headFinal : String → Option String

/-- Python truthiness of an optional string (`None` and `""` are falsy). -/
def truthyS : Option String → Bool
  | none => false
  | some s => s != ""

/-! ## Database operations (`get_db`, `save_recipe`) -/

/-- Does the store already hold a row with this `(email_id, url)` key?
This is the `UNIQUE(email_id, url)` constraint of the schema. -/
def keyMem (db : List RecipeRow) (e u : String) : Bool :=
  db.any (fun r => r.email_id == e && r.url == u)

/-- `INSERT OR IGNORE` against the `UNIQUE(email_id, url)` constraint. -/
def insertOrIgnore (db : List RecipeRow) (r : RecipeRow) : List RecipeRow :=
  if keyMem db r.email_id r.url then db else db ++ [r]

/-- `save_recipe`, parametrised by the store-insert capability so the
surrounding `try/except Exception` is visible: the title is first
passed through `html.unescape`, then the insert is attempted, and any
error is swallowed (logged in the code), leaving the store as it was. -/
def save_recipe_with
    (ins : List RecipeRow → RecipeRow → Except String (List RecipeRow))
    (db : List RecipeRow) (email_id source title url : String)
    (parent_url homepage : Option String) : List RecipeRow :=
  let row : RecipeRow := ⟨email_id, source, pyHtmlUnescape title, url, parent_url, homepage⟩
  match ins db row with
  | .ok db2 => db2
  | .error _ => db

/-- `save_recipe` with the healthy sqlite store, whose
`INSERT OR IGNORE` never raises on a duplicate key. -/
def save_recipe (db : List RecipeRow) (email_id source title url : String)
    (parent_url homepage : Option String) : List RecipeRow :=
  save_recipe_with (fun d r => .ok (insertOrIgnore d r)) db email_id source title url
    parent_url homepage

/-! ## URL utilities of the repository -/

/-- `unwrap_redirect`: unwrap a Gmail `google.com/url?q=...` redirect.
The body runs inside `try/except Exception`, so a `ValueError` from
`urlparse` — an unmatched bracket in the authority — lands in the
`except` branch and the input is returned unchanged; any other
non-redirect input is likewise returned unchanged. -/
def unwrap_redirect (href : String) : String :=
  match pyUrlparseE href "" with
  | .error _ => href
  | .ok p =>
    if strContains p.netloc "google.com" ∧ p.path = "/url" then
      match parseQsFirst "q" p.query with
      | some q => if q ≠ "" then pyUnquote q else href
      | none => href
    else href

/-- `extract_homepage_from_url`. -/
def extract_homepage_from_url (url : String) : String :=
  let parsed := pyUrlparse url ""
  parsed.scheme ++ "://" ++ parsed.netloc

/-- `fetch_recipe_title`.  The `og:title` and `h1` branches return the
corresponding text.  The `<title>` branch is reached when the page has
a `title` element with non-empty stripped text but no usable `og:title`
or `h1`; that branch ends in `return html.unescape(title)`, where the
local variable `html` — the fetched page text, a `str` — shadows the
`html` module, so the line raises `AttributeError` (modelled as
`Except.error`).  The separator-splitting loop that runs just before
it only rebinds the local `title`, so the exception swallows its
result; note also that the em-dash entry of that loop's separator
list is the mojibake literal `"â€”"` in the source, not an em-dash. -/
def fetch_recipe_title (fetchPage : String → Option Page) (url : String) :
    Except String (Option String) :=
  match fetchPage url with
  | none => .ok none
  | some page =>
    if truthyS page.ogTitle then .ok (some (pyStripWs (page.ogTitle.getD "")))
    else if truthyS page.h1Text then .ok (some (page.h1Text.getD ""))
    else if truthyS page.titleText then
      .error "AttributeError: str object has no attribute unescape"
    else .ok none

/-- The segment step of `extract_title_from_url`:
`path = parsed.path.strip('/')`, then `path.split('/')[-1]` when a
slash remains. -/
def lastPathSegment (path : String) : String :=
  let path0 := pyStripChars "/" path
  if strContains path0 "/" then
    match (splitChar '/' path0.data).getLast? with
    | some l => (⟨l⟩ : String)
    | none => path0
  else path0

/-- `extract_title_from_url`: readable title from the URL path. -/
def extract_title_from_url (url : String) : String :=
  let parsed := pyUrlparse url ""
  let path1 := lastPathSegment parsed.path
  let path2 := pyReplace (pyReplace path1 ".html" "") ".htm" ""
  let t := pyReplace (pyReplace path2 "-" " ") "_" " "
  String.intercalate " " ((pyWords t).map pyCapitalize)

/-! ## Providers -/

/-- `RecipeProvider.matches_domain`: case-insensitive substring match
of the URL against the provider's domain list. -/
def matches_domain (domains : List String) (url : String) : Bool :=
  domains.any (fun d => strContains (pyLower url) d)

def skinnytasteDomains : List String := ["skinnytaste.us", "skinnytaste.com"]

def theLostKitchenDomains : List String := ["thelostkitchen", "findthelostkitchen"]

/-- Python `s.rstrip(set)`. -/
def pyRstripChars (set : String) (s : String) : String :=
  ⟨(s.data.reverse.dropWhile (fun c => set.data.contains c)).reverse⟩

/-- `SkinnytasteProvider._follow_redirect`: resolve the MailChimp
tracking URL with a HEAD request, keep only scheme, host and path of
the final URL, and drop trailing slashes; `none` when the request — or
the `urlparse` of the final URL — raised, since the whole body sits in
`try/except`. -/
def follow_redirect (headFinal : String → Option String) (url : String) :
    Option String :=
  match headFinal url with
  | none => none
  | some finalUrl =>
    match pyUrlparseE finalUrl "" with
    | .error _ => none
    | .ok parsed =>
      some (pyRstripChars "/" (parsed.scheme ++ "://" ++ parsed.netloc ++ parsed.path))

/-- The call-to-action phrases `SkinnytasteProvider` looks for in the
anchor text. -/
def skinnytasteCtaPatterns : List String :=
  ["get the recipe", "get recipe", "view recipe", "read more"]

/-- `SkinnytasteProvider.extract_links_from_email`. -/
def skinnytaste_extract_links (headFinal : String → Option String)
    (anchors : List Anchor) : List String :=
  pyDedup (anchors.filterMap fun a =>
    let text := pyLower a.text
    let href := unwrap_redirect a.href
    if ¬ matches_domain skinnytasteDomains href then none
    else
      let path := pyLower (pyUrlparse href "").path
      if strContains path "preferences" ∨ strContains path "unsubscribe" ∨
          strContains path "account" then none
      else if skinnytasteCtaPatterns.any (fun pat => strContains text pat) then
        match follow_redirect headFinal href with
        | some clean => if clean ≠ "" then some clean else none
        | none => none
      else none)

/-- `SkinnytasteProvider.resolve_to_recipe_pages`: the email links are
direct recipe pages. -/
def skinnytaste_resolve_to_recipe_pages (url : String) : List (String × String) :=
  [(url, url)]

/-- `TheLostKitchenProvider.extract_links_from_email`. -/
def tlk_extract_links (anchors : List Anchor) : List String :=
  pyDedup (anchors.filterMap fun a =>
    let href := unwrap_redirect a.href
    if ¬ matches_domain theLostKitchenDomains href then none
    else
      let path := pyLower (pyUrlparse href "").path
      let text := pyLower a.text
      if strContains path "unsubscribe" ∨ strContains path "account" then none
      else if strContains path "recipe" ∨ strContains path "recipes" ∨
          strContains text "recipe" ∨ strContains path "very+good" then some href
      else none)

/-- The get-the-recipe call-to-action links
`TheLostKitchenProvider.resolve_to_recipe_pages` detects on a fetched
candidate page: anchors whose text contains both "get" and "recipe"
(case-insensitively), excluding the "everyday shop" footer link,
resolved against the candidate URL and deduplicated preserving order. -/
def tlk_detected_links (url : String) (page : Page) : List String :=
  pyDedup (page.anchors.filterMap fun a =>
    let text := pyLower a.text
    if strContains text "everyday shop" then none
    else if strContains text "get" && strContains text "recipe" then
      some (pyUrljoin url a.href)
    else none)

/-- `TheLostKitchenProvider.resolve_to_recipe_pages`: treat the
candidate as a landing page exactly when two or more distinct
call-to-action links are found on it; on fetch failure or fewer than
two links, treat it as a direct recipe page. -/
def tlk_resolve_to_recipe_pages (fetchPage : String → Option Page) (url : String) :
    List (String × String) :=
  match fetchPage url with
  | none => [(url, url)]
  | some page =>
    let uniq := tlk_detected_links url page
    if 2 ≤ uniq.length then uniq.map (fun r => (url, r)) else [(url, url)]

/-! ## Provider registry -/

/-- `ProviderRegistry.extract_all_recipes_from_email` with the two
providers registered at module load, in registration order
(Skinnytaste first, The Lost Kitchen second): extract each provider's
candidate links, resolve every candidate, tag the resolved pairs with
the provider name, concatenate, and deduplicate globally by recipe
URL keeping the first occurrence. -/
def extract_all_recipes_from_email (env : Env) (anchors : List Anchor) :
    List (String × String × String) :=
  let sk := (skinnytaste_extract_links env.headFinal anchors).flatMap
    (fun l => (skinnytaste_resolve_to_recipe_pages l).map
      (fun pr => (("skinnytaste" : String), pr.1, pr.2)))
  let tlk := (tlk_extract_links anchors).flatMap
    (fun l => (tlk_resolve_to_recipe_pages env.fetchPage l).map
      (fun pr => (("the_lost_kitchen" : String), pr.1, pr.2)))
  pyDedupBy (fun t => t.2.2) (sk ++ tlk)

/-! ## Sync orchestrator (`sync_recipes`) -/

/-- The run summary described by the spec (messages processed, recipes
found, recipes newly inserted, fetch failures).  Modelled from the
spec for claim C7 only: `sync_recipes` has no such value — it returns
`None` on both of its exits — so this structure exists purely to state
what the claimed return value would carry. -/
structure Summary where
  processed : Nat
  found : Nat
  inserted : Nat
  failures : Nat
deriving Repr, DecidableEq

/-- Result of one sync run: the final store, whether the run ended
normally (`false` means an uncaught exception aborted it), and the
Python return value. -/
structure SyncResult where
  db : List RecipeRow
  completed : Bool
  retval : Option Summary
deriving Repr, DecidableEq

/-- The per-tuple title fallback chain of `sync_recipes`: for
multi-recipe emails prefer the fetched page title, then the
URL-derived title; for single-recipe emails additionally fall back to
the email subject; a final guard falls back to the subject in either
branch.  An exception from `fetch_recipe_title` propagates (there is
no handler in `sync_recipes`). -/
def compute_title (fetchPage : String → Option Page) (subject : String)
    (multi : Bool) (recipe_url : String) : Except String String :=
  match fetch_recipe_title fetchPage recipe_url with
  | .error e => .error e
  | .ok t0 =>
    let t1 :=
      if multi then
        if truthyS t0 then t0.getD "" else extract_title_from_url recipe_url
      else
        let a := if truthyS t0 then t0.getD "" else extract_title_from_url recipe_url
        if a = "" then subject else a
    .ok (if t1 = "" then subject else t1)

/-- The inner loop of `sync_recipes` over one email's resolved
`(provider_name, parent_url, recipe_url)` tuples: compute the title,
compute the homepage, persist.  Returns the updated store and whether
the loop ran to completion (`false`: aborted by the uncaught title
exception). -/
def process_tuples (env : Env) (email_id subject : String) (multi : Bool) :
    List (String × String × String) → List RecipeRow → List RecipeRow × Bool
  | [], db => (db, true)
  | t :: rest, db =>
    match compute_title env.fetchPage subject multi t.2.2 with
    | .error _ => (db, false)
    | .ok title =>
      let homepage := extract_homepage_from_url t.2.2
      let db2 := save_recipe db email_id t.1 title t.2.2
        (if t.2.1 ≠ t.2.2 then some t.2.1 else none) (some homepage)
      process_tuples env email_id subject multi rest db2

/-- One message of the `sync_recipes` loop: extract all recipes; a
message with no recipe URLs is skipped (not an error). -/
def process_message (env : Env) (m : EmailMessage) (db : List RecipeRow) :
    List RecipeRow × Bool :=
  let recipes := extract_all_recipes_from_email env m.anchors
  if recipes.isEmpty then (db, true)
  else process_tuples env m.id m.subject (decide (1 < recipes.length)) recipes db

/-- The message loop of `sync_recipes`, stopping at the first message
whose processing raised. -/
def process_messages (env : Env) :
    List EmailMessage → List RecipeRow → List RecipeRow × Bool
  | [], db => (db, true)
  | m :: rest, db =>
    let r := process_message env m db
    if r.2 then process_messages env rest r.1 else (r.1, false)

/-- `sync_recipes`: one full run over the mailbox state.  The early
exit when the Gmail query returns no messages and the fall-through end
both return `None` in Python; `retval` records that return value. -/
def sync_recipes (env : Env) (db : List RecipeRow) : SyncResult :=
  if env.messages.isEmpty then ⟨db, true, none⟩
  else
    let r := process_messages env env.messages db
    ⟨r.1, r.2, none⟩

/-! ## Store invariant -/

/-- The store key of a row: its `(email_id, url)` pair. -/
def rowKey (r : RecipeRow) : String × String := (r.email_id, r.url)

/-- The schema invariant: no two rows share an `(email_id, url)` pair. -/
def NodupKeys (db : List RecipeRow) : Prop := (db.map rowKey).Nodup

/-! ## Readings of the claimed `derive_title_from_path` behaviour

Two further definitions for claim C8, both written from the claim's
words rather than from the code (the code definition is
`extract_title_from_url` above).  The claim says the known page-file
suffixes are "stripped"; `specDeriveTitleSuffix` is that literal
reading (removal only at the end of the segment), which the code
falsifies, and `amendedDeriveTitle` is the amended reading (removal of
every occurrence), which the code satisfies. -/

def listEndsWith (s pat : List Char) : Bool :=
  listStartsWith s.reverse pat.reverse

/-- Strip one trailing occurrence of `pat`, if present. -/
def stripSuffixOnce (pat s : String) : String :=
  if listEndsWith s.data pat.data then
    ⟨s.data.take (s.data.length - pat.data.length)⟩
  else s

/-- The claim's literal reading: the final path segment with the
page-file suffixes removed only when they end the segment, the rest of
the transformation as described (hyphens and underscores to spaces,
words title-cased). -/
def specDeriveTitleSuffix (url : String) : String :=
  let parsed := pyUrlparse url ""
  match ((splitChar '/' parsed.path.data).filter (fun s => !s.isEmpty)).getLast? with
  | none => ""
  | some seg =>
    let noExt := stripSuffixOnce ".htm" (stripSuffixOnce ".html" (⟨seg⟩ : String))
    let spaced := pyReplace (pyReplace noExt "-" " ") "_" " "
    String.intercalate " " ((pyWords spaced).map pyCapitalize)

/-- Split a list at every occurrence of a (non-empty) substring,
keeping the chunks between occurrences. -/
def listSplitOnSub (pat : List Char) : Nat → List Char → List (List Char)
  | 0, s => [s]
  | _ + 1, [] => [[]]
  | fuel + 1, c :: cs =>
    if !pat.isEmpty && listStartsWith (c :: cs) pat then
      [] :: listSplitOnSub pat fuel (List.drop pat.length (c :: cs))
    else
      match listSplitOnSub pat fuel cs with
      | [] => [[c]]
      | h :: t => (c :: h) :: t

/-- Remove every occurrence of a substring: the chunks between
occurrences, joined back together. -/
def removeAllSub (pat s : String) : String :=
  ⟨(listSplitOnSub pat.data (s.data.length + 1) s.data).flatten⟩

/-- The amended reading of the claim: the final non-empty path
segment with every occurrence of ".html" and then of ".htm" removed
(not only trailing ones), hyphens and underscores replaced by spaces,
each word title-cased; the empty string when the path has no
segments. -/
def amendedDeriveTitle (url : String) : String :=
  let parsed := pyUrlparse url ""
  match ((splitChar '/' parsed.path.data).filter (fun s => !s.isEmpty)).getLast? with
  | none => ""
  | some seg =>
    let noExt := removeAllSub ".htm" (removeAllSub ".html" (⟨seg⟩ : String))
    let spaced := pyReplace (pyReplace noExt "-" " ") "_" " "
    String.intercalate " " ((pyWords spaced).map pyCapitalize)

/-! ## Concrete scenarios

Small concrete environments used by the witness and counterexample
theorems below; each mirrors a situation the source handles. -/

/-- A Lost Kitchen landing page carrying two distinct get-the-recipe
call-to-actions (one relative, one absolute), the "Everyday Shop"
footer link, and an unrelated anchor. -/
def tlkMenuPage : Page :=
  ⟨none, none, none,
   [⟨"Get the Recipe", "/recipes/a"⟩,
    ⟨"GET THE RECIPE now", "https://findthelostkitchen.com/recipes/b"⟩,
    ⟨"Everyday Shop get the recipe", "/shop"⟩,
    ⟨"read the story", "/story"⟩]⟩

/-- Page fetcher that serves `tlkMenuPage` for the menu URL and fails
on everything else. -/
def tlkMenuFetch : String → Option Page := fun u =>
  if u = "https://findthelostkitchen.com/blogs/news/menu" then some tlkMenuPage else none

/-- A mailbox with one multi-recipe email whose second link points at
the bare homepage, so its URL-derived title is empty; every page fetch
fails. -/
def envC4 : Env :=
  ⟨[⟨"m1", "Mystery Dinner Digest",
     [⟨"get the recipe now", "https://findthelostkitchen.com/recipes/apple-galette"⟩,
      ⟨"get the recipe too", "https://findthelostkitchen.com"⟩]⟩],
   fun _ => none, fun _ => none⟩

/-- A mailbox with one single-recipe email; every page fetch fails, so
the title derives from the URL path. -/
def envC7 : Env :=
  ⟨[⟨"m1", "Weekly Recipe",
     [⟨"get the recipe", "https://findthelostkitchen.com/recipes/apple-galette"⟩]⟩],
   fun _ => none, fun _ => none⟩

/-- Same single-recipe mailbox under a different message id, used to
exercise idempotence of a full sync run. -/
def envC1 : Env :=
  ⟨[⟨"m9", "Weekly Recipe",
     [⟨"get the recipe", "https://findthelostkitchen.com/recipes/pear-tart"⟩]⟩],
   fun _ => none, fun _ => none⟩

end TLK

/-! # Theorems -/

namespace TLK

/-! ## Helper lemmas -/

theorem truthyS_none : truthyS none = false := rfl

theorem truthyS_some (s : String) : truthyS (some s) = (s != "") := rfl

/-! ## C10: `save_recipe` swallows every insert error -/

/-- C10: the store write `save_recipe` catches every exception raised
during the insert — whatever the error, not only a duplicate-key
outcome — and returns normally with the store unchanged, so a failing
insert silently omits that record and never aborts the sync run; with
the healthy store the write is exactly insert-or-ignore of the
entity-decoded row. -/
theorem save_recipe_swallows_insert_errors
    (ins : List RecipeRow → RecipeRow → Except String (List RecipeRow))
    (db : List RecipeRow) (e src t u : String) (pu hp : Option String) :
    (∀ err, ins db ⟨e, src, pyHtmlUnescape t, u, pu, hp⟩ = .error err →
      save_recipe_with ins db e src t u pu hp = db) ∧
    save_recipe db e src t u pu hp =
      insertOrIgnore db ⟨e, src, pyHtmlUnescape t, u, pu, hp⟩ := by
  constructor
  · intro err h
    simp only [save_recipe_with, h]
  · rfl

/-- Witness for C10: a store whose insert raises a disk error keeps
the record out without aborting, and the healthy store inserts. -/
theorem save_recipe_swallows_insert_errors_witness :
    save_recipe_with (fun _ _ => .error "sqlite3.OperationalError: disk I/O error")
      [] "m1" "skinnytaste" "Tacos" "https://skinnytaste.com/tacos" none none = [] ∧
    save_recipe [] "m1" "skinnytaste" "Tacos" "https://skinnytaste.com/tacos" none none =
      insertOrIgnore []
        ⟨"m1", "skinnytaste", pyHtmlUnescape "Tacos", "https://skinnytaste.com/tacos",
         none, none⟩ :=
  ⟨(save_recipe_swallows_insert_errors
      (fun _ _ => .error "sqlite3.OperationalError: disk I/O error")
      [] "m1" "skinnytaste" "Tacos" "https://skinnytaste.com/tacos" none none).1
      "sqlite3.OperationalError: disk I/O error" rfl,
   (save_recipe_swallows_insert_errors
      (fun _ _ => .error "sqlite3.OperationalError: disk I/O error")
      [] "m1" "skinnytaste" "Tacos" "https://skinnytaste.com/tacos" none none).2⟩

/-! ## C6: fetch failure yields absent, swallowed locally -/

/-- C6: for every URL whose page fetch fails (timeout, non-2xx,
connection error — all become `none` through the catch-all handler in
`fetch_page_html`), `fetch_recipe_title` returns absent and raises
nothing: the single attempted fetch fails and the failure is swallowed
locally, so it cannot abort the pipeline. -/
theorem fetch_failure_returns_none (fetchPage : String → Option Page) (url : String)
    (h : fetchPage url = none) :
    fetch_recipe_title fetchPage url = .ok none := by
  simp only [fetch_recipe_title, h]

/-- Witness for C6 at a concrete URL with an always-failing fetcher. -/
theorem fetch_failure_returns_none_witness :
    fetch_recipe_title (fun _ => none) "https://skinnytaste.com/air-fryer-chicken" =
      .ok none :=
  fetch_failure_returns_none (fun _ => none) "https://skinnytaste.com/air-fryer-chicken" rfl

/-! ## C5: `og:title` has strict priority -/

/-- C5: when the fetched page has an `og:title` meta with non-empty
content, `fetch_recipe_title` returns that content trimmed, whatever
the page's `h1` and `title` elements hold. -/
theorem og_title_priority (fetchPage : String → Option Page) (url : String)
    (page : Page) (c : String) (hf : fetchPage url = some page)
    (hog : page.ogTitle = some c) (hc : c ≠ "") :
    fetch_recipe_title fetchPage url = .ok (some (pyStripWs c)) := by
  simp only [fetch_recipe_title, hf, hog, truthyS_some, Option.getD_some]
  rw [if_pos (by simpa [bne_iff_ne] using hc)]

/-- Witness for C5: the spec's example page (`og:title` "Chicken
Tacos", `h1` "Best Chicken Tacos", `title` "Chicken Tacos – Site
Name") yields "Chicken Tacos". -/
theorem og_title_priority_witness :
    fetch_recipe_title
      (fun u => if u = "https://skinnytaste.com/chicken-tacos"
        then some ⟨some "Chicken Tacos", some "Best Chicken Tacos",
                   some "Chicken Tacos – Site Name", []⟩
        else none)
      "https://skinnytaste.com/chicken-tacos" = .ok (some "Chicken Tacos") := by
  rw [og_title_priority
    (fun u => if u = "https://skinnytaste.com/chicken-tacos"
      then some ⟨some "Chicken Tacos", some "Best Chicken Tacos",
                 some "Chicken Tacos – Site Name", []⟩
      else none)
    "https://skinnytaste.com/chicken-tacos"
    ⟨some "Chicken Tacos", some "Best Chicken Tacos",
     some "Chicken Tacos – Site Name", []⟩
    "Chicken Tacos" (by decide) rfl (by decide)]
  decide

/-! ## C2: the `<title>` fallback branch raises -/

/-- C2 (code bug): evaluating the code at the claim's own example — a
fetched page with no `og:title`, no `h1`, and
`<title>Recipe — Example</title>` — does not return "Recipe": the
branch ends in `return html.unescape(title)` where the local variable
`html` (the fetched page text, a `str`) shadows the `html` module, so
`fetch_recipe_title` raises `AttributeError`.  (Independently of the
crash, the em-dash separator in the code's split list is the mojibake
literal "â€”", so a true em-dash would not be matched even once the
decode line is fixed.) -/
theorem fetch_recipe_title_title_branch_raises :
    fetch_recipe_title
      (fun u => if u = "https://findthelostkitchen.com/blogs/recipes/r1"
        then some ⟨none, none, some "Recipe — Example", []⟩ else none)
      "https://findthelostkitchen.com/blogs/recipes/r1" =
      .error "AttributeError: str object has no attribute unescape" := by
  decide

/-! ## C9: `unwrap_redirect` -/

/-- C9: `unwrap_redirect` never raises — its body is wrapped in
`try/except Exception`, so when `urlparse` raises (a malformed URL
with an unmatched bracket in the authority) the `except` branch
returns the input unchanged.  When the input parses and has a
google.com authority, the path `/url` and a recorded non-empty first
`q` value, the result is that decoded value (percent-decoded once more
on top of the query decoding); on every other parsed input the input
comes back unchanged. -/
theorem unwrap_redirect_cases (href : String) :
    (∀ err, pyUrlparseE href "" = .error err → unwrap_redirect href = href) ∧
    (∀ p, pyUrlparseE href "" = .ok p →
      (∀ q, strContains p.netloc "google.com" = true →
        p.path = "/url" →
        parseQsFirst "q" p.query = some q →
        q ≠ "" →
        unwrap_redirect href = pyUnquote q) ∧
      ((¬ (strContains p.netloc "google.com" = true ∧ p.path = "/url")) ∨
          parseQsFirst "q" p.query = none →
        unwrap_redirect href = href)) := by
  constructor
  · intro err herr
    simp only [unwrap_redirect, herr]
  · intro p hp
    constructor
    · intro q hn hpath hq hqne
      simp only [unwrap_redirect, hp]
      rw [if_pos ⟨hn, hpath⟩, hq]
      exact if_pos hqne
    · intro h
      simp only [unwrap_redirect, hp]
      rcases h with h | h
      · exact if_neg h
      · by_cases hc : strContains p.netloc "google.com" = true ∧ p.path = "/url"
        · rw [if_pos hc, h]
        · exact if_neg hc

/-- Witness for C9: a Gmail redirect wrapper is unwrapped to its
decoded target; a non-redirect URL passes through unchanged; and a
malformed URL with an unmatched bracket in the authority — on which
CPython's `urlparse` raises `ValueError("Invalid IPv6 URL")` — is
returned unchanged through the `except` branch. -/
theorem unwrap_redirect_cases_witness :
    unwrap_redirect
      "https://www.google.com/url?q=https%3A%2F%2Fskinnytaste.com%2Ftacos&sa=D" =
      "https://skinnytaste.com/tacos" ∧
    unwrap_redirect "https://skinnytaste.com/tacos" = "https://skinnytaste.com/tacos" ∧
    unwrap_redirect "http://google.com[/url?q=evil" = "http://google.com[/url?q=evil" := by
  refine ⟨?_, ?_, ?_⟩
  · rw [((unwrap_redirect_cases
      "https://www.google.com/url?q=https%3A%2F%2Fskinnytaste.com%2Ftacos&sa=D").2
      (pyUrlparse "https://www.google.com/url?q=https%3A%2F%2Fskinnytaste.com%2Ftacos&sa=D" "")
      (by decide)).1
      "https://skinnytaste.com/tacos" (by decide) (by decide) (by decide) (by decide)]
    decide
  · exact (((unwrap_redirect_cases "https://skinnytaste.com/tacos").2
      (pyUrlparse "https://skinnytaste.com/tacos" "") (by decide)).2 (Or.inl (by decide)))
  · exact (unwrap_redirect_cases "http://google.com[/url?q=evil").1
      "ValueError: Invalid IPv6 URL" (by decide)

/-! ## C3: landing-page resolution -/

theorem pyDedupAux_nodup {α : Type} [DecidableEq α] (l : List α) :
    ∀ seen : List α, (pyDedupAux l seen).Nodup ∧ ∀ x ∈ pyDedupAux l seen, x ∉ seen := by
  induction l with
  | nil => intro seen; simp [pyDedupAux]
  | cons a l ih =>
    intro seen
    by_cases h : a ∈ seen
    · simpa only [pyDedupAux, if_pos h] using ih seen
    · simp only [pyDedupAux, if_neg h]
      obtain ⟨hnd, hmem⟩ := ih (a :: seen)
      refine ⟨List.nodup_cons.mpr ⟨fun hx => ?_, hnd⟩, ?_⟩
      · exact (hmem a hx) (List.mem_cons_self a seen)
      · intro x hx
        rcases List.mem_cons.mp hx with rfl | hx'
        · exact h
        · exact fun hxs => (hmem x hx') (List.mem_cons_of_mem a hxs)

/-- The seen-set deduplication loop produces a duplicate-free list. -/
theorem pyDedup_nodup {α : Type} [DecidableEq α] (l : List α) : (pyDedup l).Nodup :=
  (pyDedupAux_nodup l []).1

/-- C3: cases of `TheLostKitchenProvider.resolve_to_recipe_pages` for
a candidate URL.  If the page fetch fails, the result is exactly
`[(url, url)]`.  If the fetch succeeds and the page carries two or
more distinct detected call-to-action links (footer phrase excluded,
relative links resolved against the candidate), the result pairs the
candidate with each detected link: every pair's parent is the
candidate URL and the recipe URLs are exactly the detected links, with
no duplicates.  Otherwise the result is again exactly `[(url, url)]`. -/
theorem tlk_resolve_cases (fetchPage : String → Option Page) (url : String) :
    (fetchPage url = none → tlk_resolve_to_recipe_pages fetchPage url = [(url, url)]) ∧
    (∀ page, fetchPage url = some page →
      (2 ≤ (tlk_detected_links url page).length →
        tlk_resolve_to_recipe_pages fetchPage url =
          (tlk_detected_links url page).map (fun r => (url, r)) ∧
        (∀ pr ∈ tlk_resolve_to_recipe_pages fetchPage url, pr.1 = url) ∧
        ((tlk_resolve_to_recipe_pages fetchPage url).map Prod.snd).Nodup) ∧
      ((tlk_detected_links url page).length < 2 →
        tlk_resolve_to_recipe_pages fetchPage url = [(url, url)])) := by
  constructor
  · intro h
    simp only [tlk_resolve_to_recipe_pages, h]
  · intro page hf
    constructor
    · intro h2
      have heq : tlk_resolve_to_recipe_pages fetchPage url =
          (tlk_detected_links url page).map (fun r => (url, r)) := by
        simp only [tlk_resolve_to_recipe_pages, hf]
        rw [if_pos h2]
      refine ⟨heq, ?_, ?_⟩
      · intro pr hpr
        rw [heq] at hpr
        obtain ⟨r, _, hr⟩ := List.mem_map.mp hpr
        exact hr ▸ rfl
      · rw [heq, List.map_map]
        have : (Prod.snd ∘ fun r => ((url, r) : String × String)) = id := rfl
        rw [this, List.map_id]
        exact pyDedup_nodup _
    · intro hlt
      simp only [tlk_resolve_to_recipe_pages, hf]
      rw [if_neg (by omega)]

/-- Witness for C3: the concrete landing page with two distinct
call-to-actions resolves to the two pairs, and a URL whose fetch fails
resolves to itself. -/
theorem tlk_resolve_cases_witness :
    tlk_resolve_to_recipe_pages tlkMenuFetch
      "https://findthelostkitchen.com/blogs/news/menu" =
      [("https://findthelostkitchen.com/blogs/news/menu",
        "https://findthelostkitchen.com/recipes/a"),
       ("https://findthelostkitchen.com/blogs/news/menu",
        "https://findthelostkitchen.com/recipes/b")] ∧
    tlk_resolve_to_recipe_pages tlkMenuFetch "https://findthelostkitchen.com/other" =
      [("https://findthelostkitchen.com/other", "https://findthelostkitchen.com/other")] := by
  constructor
  · rw [(((tlk_resolve_cases tlkMenuFetch
      "https://findthelostkitchen.com/blogs/news/menu").2 tlkMenuPage (by decide)).1
      (by decide)).1]
    decide
  · exact (tlk_resolve_cases tlkMenuFetch "https://findthelostkitchen.com/other").1
      (by decide)

/-! ## C4: multi-recipe titles and the email subject -/

/-- C4 (counterexample): a multi-recipe email (two resolved tuples)
where the second recipe's page fetch fails and its URL — the bare
homepage — yields an empty URL-derived title: the absolute final
fallback of the chain stores the shared email subject
"Mystery Dinner Digest" as that recipe's title, contradicting the
claim's "never the shared email subject line". -/
theorem multi_recipe_subject_title_cex :
    1 < (extract_all_recipes_from_email envC4
      (envC4.messages.headD ⟨"", "", []⟩).anchors).length ∧
    (sync_recipes envC4 []).db.map RecipeRow.title =
      ["Apple Galette", "Mystery Dinner Digest"] := by
  decide

/-- C4 (amended): for a message that yielded more than one recipe
tuple, each tuple's title is computed from its own recipe URL — the
fetched page title, or on fetch failure the URL-derived title — and
never from the shared email subject, • except • when the fetch yields
no usable title and the URL-derived title is empty, in which case the
chain's absolute final fallback does store the subject.  Equivalently:
whenever the fetch returns a usable title or the URL-derived title is
non-empty, the computed title is independent of the subject. -/
theorem multi_recipe_title_subject_independent
    (fetchPage : String → Option Page) (s s' url : String)
    (h : ∀ t0, fetch_recipe_title fetchPage url = .ok t0 →
      truthyS t0 = true ∨ extract_title_from_url url ≠ "") :
    compute_title fetchPage s true url = compute_title fetchPage s' true url := by
  unfold compute_title
  cases hfr : fetch_recipe_title fetchPage url with
  | error e => rfl
  | ok t0 =>
    have hne : (if truthyS t0 = true then t0.getD "" else extract_title_from_url url) ≠ "" := by
      by_cases htr : truthyS t0 = true
      · rw [if_pos htr]
        cases t0 with
        | none => simp [truthyS] at htr
        | some v => simpa [truthyS, bne_iff_ne] using htr
      · rw [if_neg htr]
        rcases h t0 hfr with ht | ht
        · exact absurd ht htr
        · exact ht
    dsimp only
    simp only [if_true]
    rw [if_neg hne, if_neg hne]

/-! ## C1: key uniqueness and idempotence of the sync -/

theorem keyMem_iff (db : List RecipeRow) (e u : String) :
    keyMem db e u = true ↔ (e, u) ∈ db.map rowKey := by
  simp only [keyMem, List.any_eq_true, Bool.and_eq_true, beq_iff_eq, List.mem_map,
    rowKey, Prod.mk.injEq]

theorem keyMem_append (db l : List RecipeRow) (e u : String) :
    keyMem (db ++ l) e u = (keyMem db e u || keyMem l e u) := by
  simp [keyMem, List.any_append]

theorem save_recipe_of_keyMem (db : List RecipeRow) (e src t u : String)
    (pu hp : Option String) (h : keyMem db e u = true) :
    save_recipe db e src t u pu hp = db := by
  simp only [save_recipe, save_recipe_with, insertOrIgnore]
  simp [h]

theorem keyMem_save_self (db : List RecipeRow) (e src t u : String)
    (pu hp : Option String) :
    keyMem (save_recipe db e src t u pu hp) e u = true := by
  simp only [save_recipe, save_recipe_with, insertOrIgnore]
  by_cases h : keyMem db e u = true
  · simp [h]
  · rw [if_neg h, keyMem_append]
    simp [keyMem]

theorem keyMem_save_mono (db : List RecipeRow) (e' u' e src t u : String)
    (pu hp : Option String) (h : keyMem db e' u' = true) :
    keyMem (save_recipe db e src t u pu hp) e' u' = true := by
  simp only [save_recipe, save_recipe_with, insertOrIgnore]
  by_cases hk : keyMem db e u = true
  · simpa [hk]
  · simp [hk, keyMem_append, h]

theorem nodupKeys_save (db : List RecipeRow) (e src t u : String)
    (pu hp : Option String) (h : NodupKeys db) :
    NodupKeys (save_recipe db e src t u pu hp) := by
  simp only [save_recipe, save_recipe_with, insertOrIgnore]
  by_cases hk : keyMem db e u = true
  · simpa [hk]
  · rw [if_neg hk]
    unfold NodupKeys at h ⊢
    rw [List.map_append]
    refine List.Nodup.append h (List.nodup_singleton _) ?_
    intro x hx hx2
    have hxeq : x = (e, u) := by simpa [rowKey] using hx2
    subst hxeq
    exact hk ((keyMem_iff db e u).mpr hx)

theorem process_tuples_keyMem_mono (env : Env) (eid s : String) (m : Bool)
    (ts : List (String × String × String)) :
    ∀ db e' u', keyMem db e' u' = true →
      keyMem (process_tuples env eid s m ts db).1 e' u' = true := by
  induction ts with
  | nil => intro db e' u' h; exact h
  | cons t rest ih =>
    intro db e' u' h
    simp only [process_tuples]
    split
    · exact h
    · exact ih _ e' u' (keyMem_save_mono _ _ _ _ _ _ _ _ _ h)

theorem process_tuples_absorb (env : Env) (eid s : String) (m : Bool)
    (ts : List (String × String × String)) :
    ∀ db db2,
      (∀ a b, keyMem (process_tuples env eid s m ts db).1 a b = true →
        keyMem db2 a b = true) →
      process_tuples env eid s m ts db2 = (db2, (process_tuples env eid s m ts db).2) := by
  induction ts with
  | nil => intro db db2 _; rfl
  | cons t rest ih =>
    intro db db2 h
    cases hct : compute_title env.fetchPage s m t.2.2 with
    | error e =>
      simp only [process_tuples, hct]
    | ok title =>
      simp only [process_tuples, hct] at h ⊢
      have hkey : keyMem db2 eid t.2.2 = true :=
        h eid t.2.2 (process_tuples_keyMem_mono env eid s m rest _ eid t.2.2
          (keyMem_save_self _ _ _ _ _ _ _))
      rw [save_recipe_of_keyMem _ _ _ _ _ _ _ hkey]
      exact ih _ db2 h

theorem nodupKeys_process_tuples (env : Env) (eid s : String) (m : Bool)
    (ts : List (String × String × String)) :
    ∀ db, NodupKeys db → NodupKeys (process_tuples env eid s m ts db).1 := by
  induction ts with
  | nil => intro db h; exact h
  | cons t rest ih =>
    intro db h
    simp only [process_tuples]
    split
    · exact h
    · exact ih _ (nodupKeys_save _ _ _ _ _ _ _ h)

theorem process_message_keyMem_mono (env : Env) (m : EmailMessage) (db : List RecipeRow)
    (e' u' : String) (h : keyMem db e' u' = true) :
    keyMem (process_message env m db).1 e' u' = true := by
  simp only [process_message]
  split
  · exact h
  · exact process_tuples_keyMem_mono _ _ _ _ _ _ e' u' h

theorem process_message_absorb (env : Env) (m : EmailMessage) (db db2 : List RecipeRow)
    (h : ∀ a b, keyMem (process_message env m db).1 a b = true →
      keyMem db2 a b = true) :
    process_message env m db2 = (db2, (process_message env m db).2) := by
  simp only [process_message] at h ⊢
  by_cases hre : (extract_all_recipes_from_email env m.anchors).isEmpty = true
  · simp [hre]
  · simp only [hre, Bool.false_eq_true, if_false] at h ⊢
    exact process_tuples_absorb env m.id m.subject _ _ db db2 h

theorem nodupKeys_process_message (env : Env) (m : EmailMessage) (db : List RecipeRow)
    (h : NodupKeys db) : NodupKeys (process_message env m db).1 := by
  simp only [process_message]
  split
  · exact h
  · exact nodupKeys_process_tuples _ _ _ _ _ _ h

theorem process_messages_keyMem_mono (env : Env) (msgs : List EmailMessage) :
    ∀ db e' u', keyMem db e' u' = true →
      keyMem (process_messages env msgs db).1 e' u' = true := by
  induction msgs with
  | nil => intro db e' u' h; exact h
  | cons m rest ih =>
    intro db e' u' h
    simp only [process_messages]
    split
    · exact ih _ e' u' (process_message_keyMem_mono env m db e' u' h)
    · exact process_message_keyMem_mono env m db e' u' h

theorem process_messages_absorb (env : Env) (msgs : List EmailMessage) :
    ∀ db db2,
      (∀ a b, keyMem (process_messages env msgs db).1 a b = true →
        keyMem db2 a b = true) →
      process_messages env msgs db2 = (db2, (process_messages env msgs db).2) := by
  induction msgs with
  | nil => intro db db2 _; rfl
  | cons m rest ih =>
    intro db db2 h
    cases hr2 : (process_message env m db).2 with
    | true =>
      simp only [process_messages, hr2, if_true] at h ⊢
      have hpm : process_message env m db2 = (db2, true) := by
        have := process_message_absorb env m db db2 (fun a b hk =>
          h a b (process_messages_keyMem_mono env rest _ a b hk))
        rwa [hr2] at this
      rw [hpm]
      simpa using ih _ db2 h
    | false =>
      simp only [process_messages, hr2, Bool.false_eq_true, if_false] at h ⊢
      have hpm : process_message env m db2 = (db2, false) := by
        have := process_message_absorb env m db db2 (fun a b hk => h a b hk)
        rwa [hr2] at this
      rw [hpm]
      simp

theorem nodupKeys_process_messages (env : Env) (msgs : List EmailMessage) :
    ∀ db, NodupKeys db → NodupKeys (process_messages env msgs db).1 := by
  induction msgs with
  | nil => intro db h; exact h
  | cons m rest ih =>
    intro db h
    simp only [process_messages]
    split
    · exact ih _ (nodupKeys_process_message env m db h)
    · exact nodupKeys_process_message env m db h

/-- C1: the store never acquires two rows with the same
`(message id, URL)` pair.  Concretely: (1) a `save_recipe` whose
`(email_id, url)` key is already present is a no-op on the store —
insert-or-ignore, not an error; (2) a full sync run preserves the
key-uniqueness invariant of the store; and (3) running the full sync a
second time against the same mailbox state returns the identical
result with zero additional records. -/
theorem sync_insert_or_ignore_idempotent (env : Env) (db : List RecipeRow) :
    (∀ e src t u pu hp, keyMem db e u = true → save_recipe db e src t u pu hp = db) ∧
    (NodupKeys db → NodupKeys (sync_recipes env db).db) ∧
    sync_recipes env (sync_recipes env db).db = sync_recipes env db := by
  refine ⟨fun e src t u pu hp h => save_recipe_of_keyMem db e src t u pu hp h, ?_, ?_⟩
  · intro h
    simp only [sync_recipes]
    by_cases hm : env.messages.isEmpty = true
    · simpa [hm]
    · simp only [hm, Bool.false_eq_true, if_false]
      exact nodupKeys_process_messages env env.messages db h
  · simp only [sync_recipes]
    by_cases hm : env.messages.isEmpty = true
    · simp [hm]
    · simp only [hm, Bool.false_eq_true, if_false]
      rw [process_messages_absorb env env.messages db
        (process_messages env env.messages db).1 (fun _ _ hk => hk)]

/-- Witness for C1: a present key makes the save a no-op, the run from
the empty store satisfies the invariant, and the concrete sync is
idempotent. -/
theorem sync_insert_or_ignore_idempotent_witness :
    save_recipe [⟨"m0", "skinnytaste", "T", "https://skinnytaste.com/t", none, none⟩]
      "m0" "other" "T2" "https://skinnytaste.com/t" none none =
      [⟨"m0", "skinnytaste", "T", "https://skinnytaste.com/t", none, none⟩] ∧
    NodupKeys (sync_recipes envC1 []).db ∧
    sync_recipes envC1 (sync_recipes envC1 []).db = sync_recipes envC1 [] :=
  ⟨(sync_insert_or_ignore_idempotent envC1
      [⟨"m0", "skinnytaste", "T", "https://skinnytaste.com/t", none, none⟩]).1
      "m0" "other" "T2" "https://skinnytaste.com/t" none none (by decide),
   (sync_insert_or_ignore_idempotent envC1 []).2.1 (by simp [NodupKeys]),
   (sync_insert_or_ignore_idempotent envC1 []).2.2⟩

/-- Witness for C4 (amended): with every fetch failing and a URL whose
path yields a non-empty title, two different subjects produce the same
computed title. -/
theorem multi_recipe_title_subject_independent_witness :
    compute_title (fun _ => none) "Subject One" true
      "https://findthelostkitchen.com/recipes/apple-galette" =
    compute_title (fun _ => none) "Subject Two" true
      "https://findthelostkitchen.com/recipes/apple-galette" :=
  multi_recipe_title_subject_independent (fun _ => none) "Subject One" "Subject Two"
    "https://findthelostkitchen.com/recipes/apple-galette"
    (fun _ _ => Or.inr (by decide))

/-! ## C7: the run's return value -/

/-- C7 (counterexample): a run that completed normally, having
processed a message and inserted one record, still hands its caller
`None`: `sync_recipes` returns no summary value carrying counts. -/
theorem sync_returns_no_summary_cex :
    (sync_recipes envC7 []).completed = true ∧
    (sync_recipes envC7 []).db.length = 1 ∧
    (sync_recipes envC7 []).retval = none := by
  decide

/-- C7 (amended): `sync_recipes` returns nothing to its caller on any
run — the no-messages early return and the fall-through end both
return `None`; the counts it gathers are only printed, and the
outcome of a run is observable only through the store. -/
theorem sync_retval_none (env : Env) (db : List RecipeRow) :
    (sync_recipes env db).retval = none := by
  simp only [sync_recipes]
  split <;> rfl

/-! ## C8: `derive_title_from_path` -/

theorem splitChar_ne_nil (sep : Char) (l : List Char) : splitChar sep l ≠ [] := by
  cases l with
  | nil => simp [splitChar]
  | cons c cs =>
    simp only [splitChar]
    cases hs : splitChar sep cs with
    | nil => simp
    | cons h t => by_cases hc : c = sep <;> simp [hc]

theorem splitChar_sep_cons (sep : Char) (cs : List Char) :
    splitChar sep (sep :: cs) = [] :: splitChar sep cs := by
  simp only [splitChar]
  cases hs : splitChar sep cs with
  | nil => exact absurd hs (splitChar_ne_nil sep cs)
  | cons h t => simp

theorem splitChar_cons_ne (sep c : Char) (cs : List Char) (hc : ¬ c = sep)
    (h : List Char) (t : List (List Char)) (hs : splitChar sep cs = h :: t) :
    splitChar sep (c :: cs) = (c :: h) :: t := by
  simp only [splitChar, hs]
  simp [hc]

theorem splitChar_append_sep (sep : Char) : ∀ p : List Char,
    splitChar sep (p ++ [sep]) = splitChar sep p ++ [[]] := by
  intro p
  induction p with
  | nil =>
    rw [List.nil_append, splitChar_sep_cons]
    rfl
  | cons c cs ih =>
    by_cases hc : c = sep
    · subst hc
      rw [List.cons_append, splitChar_sep_cons, splitChar_sep_cons, ih]
      rfl
    · cases hs : splitChar sep cs with
      | nil => exact absurd hs (splitChar_ne_nil sep cs)
      | cons h t =>
        have h1 : splitChar sep (cs ++ [sep]) = h :: (t ++ [[]]) := by
          rw [ih, hs]; rfl
        rw [List.cons_append, splitChar_cons_ne sep c _ hc _ _ h1,
          splitChar_cons_ne sep c _ hc _ _ hs]
        rfl

theorem filterNE_split_dropWhile (q : Char → Bool) (hq : ∀ c, q c = true ↔ c = '/') :
    ∀ p : List Char,
      (splitChar '/' (p.dropWhile q)).filter (fun t => !t.isEmpty) =
      (splitChar '/' p).filter (fun t => !t.isEmpty) := by
  intro p
  induction p with
  | nil => rfl
  | cons c cs ih =>
    rw [List.dropWhile_cons]
    by_cases h : q c = true
    · have hc : c = '/' := (hq c).mp h
      subst hc
      rw [if_pos h, ih, splitChar_sep_cons, List.filter_cons_of_neg (by simp)]
    · rw [if_neg h]

theorem filterNE_split_dropTrailing (q : Char → Bool) (hq : ∀ c, q c = true ↔ c = '/') :
    ∀ p : List Char,
      (splitChar '/' ((p.reverse.dropWhile q).reverse)).filter (fun t => !t.isEmpty) =
      (splitChar '/' p).filter (fun t => !t.isEmpty) := by
  intro p
  induction p using List.reverseRecOn with
  | nil => rfl
  | append_singleton p' c ih =>
    rw [List.reverse_append, List.reverse_singleton, List.singleton_append,
      List.dropWhile_cons]
    by_cases h : q c = true
    · have hc : c = '/' := (hq c).mp h
      subst hc
      rw [if_pos h, ih, splitChar_append_sep, List.filter_append,
        List.filter_cons_of_neg (by simp), List.filter_nil, List.append_nil]
    · rw [if_neg h, List.reverse_cons, List.reverse_reverse]

theorem filterNE_split_strip (s : String) :
    (splitChar '/' (pyStripChars "/" s).data).filter (fun t => !t.isEmpty) =
    (splitChar '/' s.data).filter (fun t => !t.isEmpty) := by
  have hq : ∀ c, ((("/" : String).data).contains c) = true ↔ c = '/' := by
    intro c
    show (['/'].contains c) = true ↔ c = '/'
    simp
  show (splitChar '/' (stripBoth (fun c => (("/" : String).data).contains c) s.data)).filter
      (fun t => !t.isEmpty) = _
  unfold stripBoth
  rw [filterNE_split_dropTrailing _ hq, filterNE_split_dropWhile _ hq]

theorem splitChar_of_no_sep : ∀ p : List Char, listContainsSub ['/'] p = false →
    splitChar '/' p = [p] := by
  intro p
  induction p with
  | nil => intro _; rfl
  | cons c cs ih =>
    intro h
    simp only [listContainsSub, Bool.or_eq_false_iff] at h
    have hc : ¬ c = '/' := by
      intro hc
      subst hc
      simp [listStartsWith] at h
    rw [splitChar_cons_ne '/' c cs hc cs [] (ih h.2)]

theorem getLast?_filterNE : ∀ (xs : List (List Char)) x, xs.getLast? = some x → x ≠ [] →
    (xs.filter (fun t => !t.isEmpty)).getLast? = some x := by
  intro xs
  induction xs with
  | nil => intro x h _; cases h
  | cons y w ih =>
    intro x h hx
    cases w with
    | nil =>
      have hyx : y = x := by simpa using h
      subst hyx
      have hy : y.isEmpty = false := by
        cases y with
        | nil => exact absurd rfl hx
        | cons a b => rfl
      simp [List.filter_cons, hy]
    | cons z w' =>
      rw [List.getLast?_cons_cons] at h
      have hr := ih x h hx
      rw [List.filter_cons]
      by_cases hy : (!y.isEmpty) = true
      · rw [if_pos hy]
        cases hf : (z :: w').filter (fun t => !t.isEmpty) with
        | nil => rw [hf] at hr; simp at hr
        | cons a b => rw [hf] at hr; rw [List.getLast?_cons_cons]; exact hr
      · rw [if_neg hy]; exact hr

theorem splitChar_last_of_ne : ∀ (p : List Char) c, p.getLast? = some c → ¬ c = '/' →
    ∃ x, (splitChar '/' p).getLast? = some x ∧ x ≠ [] := by
  intro p
  induction p with
  | nil => intro c h; cases h
  | cons d w ih =>
    intro c h hc
    cases w with
    | nil =>
      have hcd : d = c := by simpa using h
      subst hcd
      refine ⟨[d], ?_, by simp⟩
      rw [splitChar_cons_ne '/' d [] hc [] [] rfl]
      simp
    | cons e w' =>
      rw [List.getLast?_cons_cons] at h
      obtain ⟨x, hx, hxne⟩ := ih c h hc
      by_cases hd : d = '/'
      · subst hd
        rw [splitChar_sep_cons]
        cases hs : splitChar '/' (e :: w') with
        | nil => exact absurd hs (splitChar_ne_nil _ _)
        | cons a b =>
          rw [hs] at hx
          exact ⟨x, by rw [List.getLast?_cons_cons]; exact hx, hxne⟩
      · cases hs : splitChar '/' (e :: w') with
        | nil => exact absurd hs (splitChar_ne_nil _ _)
        | cons a b =>
          rw [splitChar_cons_ne '/' d _ hd a b hs]
          cases b with
          | nil =>
            exact ⟨d :: a, by simp, by simp⟩
          | cons f g =>
            rw [hs, List.getLast?_cons_cons] at hx
            rw [List.getLast?_cons_cons]
            exact ⟨x, hx, hxne⟩

theorem head?_dropWhile_neg (q : Char → Bool) : ∀ (l : List Char) c,
    (l.dropWhile q).head? = some c → q c = false := by
  intro l
  induction l with
  | nil => intro c h; cases h
  | cons a w ih =>
    intro c h
    rw [List.dropWhile_cons] at h
    by_cases ha : q a = true
    · rw [if_pos ha] at h; exact ih c h
    · rw [if_neg ha] at h
      have hca : c = a := by simpa using h.symm
      subst hca
      exact Bool.not_eq_true _ ▸ ha

theorem getLast?_strip_neg (q : Char → Bool) (s : List Char) (c : Char)
    (h : (stripBoth q s).getLast? = some c) : q c = false := by
  unfold stripBoth at h
  rw [List.getLast?_reverse] at h
  exact head?_dropWhile_neg q _ c h

/-- The code's segment step agrees with the spec's wording: it is the
final non-empty path segment (empty when there is none). -/
theorem lastPathSegment_eq (s : String) :
    lastPathSegment s =
      ⟨(((splitChar '/' s.data).filter (fun t => !t.isEmpty)).getLast?).getD []⟩ := by
  have hq : ∀ c, ((("/" : String).data).contains c) = true ↔ c = '/' := by
    intro c
    show (['/'].contains c) = true ↔ c = '/'
    simp
  unfold lastPathSegment
  rw [← filterNE_split_strip s]
  by_cases hc : strContains (pyStripChars "/" s) "/" = true
  · rw [if_pos hc]
    have hne : (pyStripChars "/" s).data ≠ [] := by
      intro h0
      rw [strContains, h0] at hc
      simp [listContainsSub] at hc
    cases hL : (pyStripChars "/" s).data.getLast? with
    | none => exact absurd (List.getLast?_eq_none_iff.mp hL) hne
    | some c =>
      have hcq : ¬ c = '/' := by
        intro hceq
        have hfalse : (("/" : String).data).contains c = false :=
          getLast?_strip_neg (fun c => (("/" : String).data).contains c) s.data c hL
        rw [(hq c).mpr hceq] at hfalse
        cases hfalse
      obtain ⟨x, hx, hxne⟩ := splitChar_last_of_ne _ c hL hcq
      rw [hx, getLast?_filterNE _ x hx hxne]
      rfl
  · rw [if_neg hc]
    have hnc : listContainsSub ['/'] (pyStripChars "/" s).data = false := by
      have h1 : strContains (pyStripChars "/" s) "/" = false := by
        cases hb : strContains (pyStripChars "/" s) "/"
        · rfl
        · exact absurd hb hc
      exact h1
    rw [splitChar_of_no_sep _ hnc]
    cases hp0 : (pyStripChars "/" s).data with
    | nil =>
      have : pyStripChars "/" s = ⟨[]⟩ := by
        cases hps : pyStripChars "/" s
        simp only [hps] at hp0
        rw [hp0]
      rw [this]
      rfl
    | cons a w =>
      have : pyStripChars "/" s = ⟨a :: w⟩ := by
        cases hps : pyStripChars "/" s
        simp only [hps] at hp0
        rw [hp0]
      rw [this]
      simp

theorem listSplit_flatten_eq_replace (pat : List Char) :
    ∀ fuel s, (listSplitOnSub pat fuel s).flatten = listReplaceAux pat [] fuel s := by
  intro fuel
  induction fuel with
  | zero => intro s; simp [listSplitOnSub, listReplaceAux]
  | succ fuel ih =>
    intro s
    cases s with
    | nil => rfl
    | cons c cs =>
      simp only [listSplitOnSub, listReplaceAux]
      by_cases h : (!pat.isEmpty && listStartsWith (c :: cs) pat) = true
      · rw [if_pos h, if_pos h]
        simp [ih]
      · rw [if_neg h, if_neg h]
        cases hr : listSplitOnSub pat fuel cs with
        | nil => simp [← ih, hr]
        | cons h' t' => simp [← ih, hr]

/-- Removing every occurrence of a substring is `str.replace` with an
empty replacement. -/
theorem removeAllSub_eq_replace (pat s : String) :
    removeAllSub pat s = pyReplace s pat "" := by
  unfold removeAllSub pyReplace
  rw [listSplit_flatten_eq_replace]

/-- C8 (counterexample): on `https://example.com/easy.html-tacos/` the
code produces "Easy Tacos" — `str.replace` removes the ".html" in the
middle of the final segment — while the claim's suffix-stripping
reading produces "Easy.html Tacos"; the claim as stated is false on
this URL. -/
theorem derive_title_suffix_cex :
    extract_title_from_url "https://example.com/easy.html-tacos/" = "Easy Tacos" ∧
    specDeriveTitleSuffix "https://example.com/easy.html-tacos/" = "Easy.html Tacos" ∧
    extract_title_from_url "https://example.com/easy.html-tacos/" ≠
      specDeriveTitleSuffix "https://example.com/easy.html-tacos/" := by
  refine ⟨by decide, by decide, by decide⟩

/-- C8 (amended): for every URL, `extract_title_from_url` returns the
final non-empty path segment with every occurrence of ".html" and
then of ".htm" removed (not only as a trailing suffix), hyphens and
underscores replaced by spaces and each word title-cased, and the
empty string when the path has no non-empty segment; on the claim's
own example it returns "Easy Chicken Tacos". -/
theorem derive_title_amended (url : String) :
    extract_title_from_url url = amendedDeriveTitle url ∧
    extract_title_from_url "https://example.com/easy-chicken-tacos/" =
      "Easy Chicken Tacos" ∧
    extract_title_from_url "https://example.com" = "" := by
  refine ⟨?_, by decide, by decide⟩
  simp only [extract_title_from_url, amendedDeriveTitle]
  rw [lastPathSegment_eq]
  cases hL : (((splitChar '/' (pyUrlparse url "").path.data).filter
      (fun t => !t.isEmpty)).getLast?) with
  | none => decide
  | some seg =>
    dsimp only
    rw [removeAllSub_eq_replace, removeAllSub_eq_replace]
    simp only [Option.getD_some]

end TLK
